import Mathlib

/-!
Shallow embedding of the claim-based work-queue in `batch.py` (class
`Database`, class `BatchExecutor`, class `ProgressObserver`, and the
supervisor loop in `cmd_run`), together with theorems checking the
natural-language specification against it.

The SQLite table `batch_data` is modelled as a `List Row` kept in rowid
order (a full table scan, and a scan of the partial index on rows with
`odata IS NULL`, both return rows in rowid order).  Python `None` is
`Option.none`; the JSON (de)serialization done by `json.dumps` /
`json.loads` in `write_results` / `iter_results` is modelled by explicit
encoding functions on an abstract JSON value type, with `json.dumps`
raising `TypeError` on `bytes` values (which are not JSON serializable).
`Database.claim_batch` runs its whole body while holding `self.lock`
(shared by every worker via the single `Database` object), so concurrent
executions are serialized; sequences of claims are therefore modelled by
sequential composition in an arbitrary order.
-/

namespace Batch

/-- Python values that can appear in an executor result payload
(`resultPayload`): scalars (int / float / str / bytes) and lists.
Floats are modelled by rationals (the claims use no float arithmetic). -/
inductive PyVal : Type where
  | vInt (n : Int)
  | vFloat (q : Rat)
  | vStr (s : String)
  | vBytes (b : List Nat)
  | vList (xs : List PyVal)

/-- JSON values, as produced by `json.dumps` and consumed by `json.loads`. -/
inductive Json : Type where
  | jInt (n : Int)
  | jFloat (q : Rat)
  | jStr (s : String)
  | jArr (xs : List Json)
  | jObj (kvs : List (String × Json))

mutual

/-- Decidable equality of Python values. -/
def pyValDecEq : (a b : PyVal) → Decidable (a = b)
  | .vInt n, .vInt m =>
    if h : n = m then .isTrue (by rw [h]) else .isFalse (fun hh => h (by injection hh))
  | .vFloat q, .vFloat w =>
    if h : q = w then .isTrue (by rw [h]) else .isFalse (fun hh => h (by injection hh))
  | .vStr s, .vStr t =>
    if h : s = t then .isTrue (by rw [h]) else .isFalse (fun hh => h (by injection hh))
  | .vBytes b, .vBytes c =>
    if h : b = c then .isTrue (by rw [h]) else .isFalse (fun hh => h (by injection hh))
  | .vList xs, .vList ys =>
    match pyValListDecEq xs ys with
    | .isTrue h => .isTrue (by rw [h])
    | .isFalse h => .isFalse (fun hh => h (by injection hh))
  | .vInt _, .vFloat _ => .isFalse (fun h => nomatch h)
  | .vInt _, .vStr _ => .isFalse (fun h => nomatch h)
  | .vInt _, .vBytes _ => .isFalse (fun h => nomatch h)
  | .vInt _, .vList _ => .isFalse (fun h => nomatch h)
  | .vFloat _, .vInt _ => .isFalse (fun h => nomatch h)
  | .vFloat _, .vStr _ => .isFalse (fun h => nomatch h)
  | .vFloat _, .vBytes _ => .isFalse (fun h => nomatch h)
  | .vFloat _, .vList _ => .isFalse (fun h => nomatch h)
  | .vStr _, .vInt _ => .isFalse (fun h => nomatch h)
  | .vStr _, .vFloat _ => .isFalse (fun h => nomatch h)
  | .vStr _, .vBytes _ => .isFalse (fun h => nomatch h)
  | .vStr _, .vList _ => .isFalse (fun h => nomatch h)
  | .vBytes _, .vInt _ => .isFalse (fun h => nomatch h)
  | .vBytes _, .vFloat _ => .isFalse (fun h => nomatch h)
  | .vBytes _, .vStr _ => .isFalse (fun h => nomatch h)
  | .vBytes _, .vList _ => .isFalse (fun h => nomatch h)
  | .vList _, .vInt _ => .isFalse (fun h => nomatch h)
  | .vList _, .vFloat _ => .isFalse (fun h => nomatch h)
  | .vList _, .vStr _ => .isFalse (fun h => nomatch h)
  | .vList _, .vBytes _ => .isFalse (fun h => nomatch h)

/-- Decidable equality of lists of Python values. -/
def pyValListDecEq : (a b : List PyVal) → Decidable (a = b)
  | [], [] => .isTrue rfl
  | [], _ :: _ => .isFalse (fun h => nomatch h)
  | _ :: _, [] => .isFalse (fun h => nomatch h)
  | x :: xs, y :: ys =>
    match pyValDecEq x y, pyValListDecEq xs ys with
    | .isTrue h1, .isTrue h2 => .isTrue (by rw [h1, h2])
    | .isFalse h1, _ => .isFalse (fun hh => h1 (by injection hh))
    | _, .isFalse h2 => .isFalse (fun hh => h2 (by injection hh))

end

instance : DecidableEq PyVal := pyValDecEq

mutual

/-- Decidable equality of JSON values. -/
def jsonDecEq : (a b : Json) → Decidable (a = b)
  | .jInt n, .jInt m =>
    if h : n = m then .isTrue (by rw [h]) else .isFalse (fun hh => h (by injection hh))
  | .jFloat q, .jFloat w =>
    if h : q = w then .isTrue (by rw [h]) else .isFalse (fun hh => h (by injection hh))
  | .jStr s, .jStr t =>
    if h : s = t then .isTrue (by rw [h]) else .isFalse (fun hh => h (by injection hh))
  | .jArr xs, .jArr ys =>
    match jsonListDecEq xs ys with
    | .isTrue h => .isTrue (by rw [h])
    | .isFalse h => .isFalse (fun hh => h (by injection hh))
  | .jObj xs, .jObj ys =>
    match jsonKvListDecEq xs ys with
    | .isTrue h => .isTrue (by rw [h])
    | .isFalse h => .isFalse (fun hh => h (by injection hh))
  | .jInt _, .jFloat _ => .isFalse (fun h => nomatch h)
  | .jInt _, .jStr _ => .isFalse (fun h => nomatch h)
  | .jInt _, .jArr _ => .isFalse (fun h => nomatch h)
  | .jInt _, .jObj _ => .isFalse (fun h => nomatch h)
  | .jFloat _, .jInt _ => .isFalse (fun h => nomatch h)
  | .jFloat _, .jStr _ => .isFalse (fun h => nomatch h)
  | .jFloat _, .jArr _ => .isFalse (fun h => nomatch h)
  | .jFloat _, .jObj _ => .isFalse (fun h => nomatch h)
  | .jStr _, .jInt _ => .isFalse (fun h => nomatch h)
  | .jStr _, .jFloat _ => .isFalse (fun h => nomatch h)
  | .jStr _, .jArr _ => .isFalse (fun h => nomatch h)
  | .jStr _, .jObj _ => .isFalse (fun h => nomatch h)
  | .jArr _, .jInt _ => .isFalse (fun h => nomatch h)
  | .jArr _, .jFloat _ => .isFalse (fun h => nomatch h)
  | .jArr _, .jStr _ => .isFalse (fun h => nomatch h)
  | .jArr _, .jObj _ => .isFalse (fun h => nomatch h)
  | .jObj _, .jInt _ => .isFalse (fun h => nomatch h)
  | .jObj _, .jFloat _ => .isFalse (fun h => nomatch h)
  | .jObj _, .jStr _ => .isFalse (fun h => nomatch h)
  | .jObj _, .jArr _ => .isFalse (fun h => nomatch h)

/-- Decidable equality of lists of JSON values. -/
def jsonListDecEq : (a b : List Json) → Decidable (a = b)
  | [], [] => .isTrue rfl
  | [], _ :: _ => .isFalse (fun h => nomatch h)
  | _ :: _, [] => .isFalse (fun h => nomatch h)
  | x :: xs, y :: ys =>
    match jsonDecEq x y, jsonListDecEq xs ys with
    | .isTrue h1, .isTrue h2 => .isTrue (by rw [h1, h2])
    | .isFalse h1, _ => .isFalse (fun hh => h1 (by injection hh))
    | _, .isFalse h2 => .isFalse (fun hh => h2 (by injection hh))

/-- Decidable equality of key-value lists of JSON values. -/
def jsonKvListDecEq : (a b : List (String × Json)) → Decidable (a = b)
  | [], [] => .isTrue rfl
  | [], _ :: _ => .isFalse (fun h => nomatch h)
  | _ :: _, [] => .isFalse (fun h => nomatch h)
  | (k1, x) :: xs, (k2, y) :: ys =>
    match decEq k1 k2, jsonDecEq x y, jsonKvListDecEq xs ys with
    | .isTrue h0, .isTrue h1, .isTrue h2 => .isTrue (by rw [h0, h1, h2])
    | .isFalse h0, _, _ =>
      .isFalse (fun hh => h0 (congrArg (fun l => (l.headD (default, .jInt 0)).1) hh))
    | _, .isFalse h1, _ =>
      .isFalse (fun hh => h1 (congrArg (fun l => (l.headD (default, .jInt 0)).2) hh))
    | _, _, .isFalse h2 => .isFalse (fun hh => h2 (by injection hh))

end

instance : DecidableEq Json := jsonDecEq

/-- A result payload: the Python dict passed to `Database.write_results`,
a mapping from string keys to values. -/
abbrev Payload : Type := List (String × PyVal)

/-- Python exceptions relevant to the embedded code paths. -/
inductive PyErr : Type where
  | valueError
  | typeError
  | zeroDivisionError
deriving DecidableEq

mutual

/-- `json.dumps` on a single value; `none` models the `TypeError` raised
on a `bytes` object ("Object of type bytes is not JSON serializable"). -/
def dumpsVal : PyVal → Option Json
  | .vInt n => some (.jInt n)
  | .vFloat q => some (.jFloat q)
  | .vStr s => some (.jStr s)
  | .vBytes _ => none
  | .vList xs =>
    match dumpsList xs with
    | some js => some (.jArr js)
    | none => none

/-- `json.dumps` elementwise on a Python list. -/
def dumpsList : List PyVal → Option (List Json)
  | [] => some []
  | x :: xs =>
    match dumpsVal x, dumpsList xs with
    | some j, some js => some (j :: js)
    | _, _ => none

end

/-- `json.dumps` on a payload dict (string keys, `dumpsVal` on values). -/
def dumpsPayload : Payload → Option (List (String × Json))
  | [] => some []
  | (k, v) :: rest =>
    match dumpsVal v, dumpsPayload rest with
    | some j, some js => some ((k, j) :: js)
    | _, _ => none

mutual

/-- `json.loads` on a single JSON value, back to a Python value.  A nested
object cannot arise from a contract-conforming payload, so it is mapped to
`none` (the embedding has no Python dict value constructor). -/
def loadsVal : Json → Option PyVal
  | .jInt n => some (.vInt n)
  | .jFloat q => some (.vFloat q)
  | .jStr s => some (.vStr s)
  | .jArr js =>
    match loadsList js with
    | some xs => some (.vList xs)
    | none => none
  | .jObj _ => none

/-- `json.loads` elementwise on a JSON array. -/
def loadsList : List Json → Option (List PyVal)
  | [] => some []
  | j :: js =>
    match loadsVal j, loadsList js with
    | some x, some xs => some (x :: xs)
    | _, _ => none

end

/-- `json.loads` on a serialized payload object. -/
def loadsPayload : List (String × Json) → Option Payload
  | [] => some []
  | (k, j) :: rest =>
    match loadsVal j, loadsPayload rest with
    | some v, some vs => some ((k, v) :: vs)
    | _, _ => none

/-- The immutable case input columns of `batch_data` (`Database.CASE_KEYS`):
`profile TEXT, evidence TEXT, contributors INTEGER, deducible INTEGER,
quantity REAL, theta REAL, labkitid TEXT`, each nullable. -/
structure CaseFields : Type where
  profile : Option String
  evidence : Option String
  contributors : Option Int
  deducible : Option Int
  quantity : Option Rat
  theta : Option Rat
  labkitid : Option String
deriving DecidableEq

/-- One row of the `batch_data` table: the case columns plus the result
column `odata BLOB` (stored JSON text, modelled by its parsed `Json`
object value) and the operational column `claimant INTEGER`. -/
structure Row : Type where
  rowid : Nat
  fields : CaseFields
  claimant : Option Int
  odata : Option (List (String × Json))
deriving DecidableEq

/-- The in-memory `run.Case` object as populated by
`Database.claim_batch` (rowid plus copies of the case columns, with
`deducible` coerced by `bool(...)`). -/
structure CaseHandle : Type where
  rowid : Nat
  profile : Option String
  evidence : Option String
  contributors : Option Int
  deducible : Bool
  quantity : Option Rat
  theta : Option Rat
  labkitid : Option String
deriving DecidableEq

/-- Python `bool(x)` on a nullable integer column value. -/
def pyBool : Option Int → Bool
  | none => false
  | some n => n ≠ 0

/-- Build the `run.Case` copy `claim_batch` returns for a fetched row. -/
def handleOfRow (r : Row) : CaseHandle :=
  { rowid := r.rowid
    profile := r.fields.profile
    evidence := r.fields.evidence
    contributors := r.fields.contributors
    deducible := pyBool r.fields.deducible
    quantity := r.fields.quantity
    theta := r.fields.theta
    labkitid := r.fields.labkitid }

/-- The rowid column of the whole table, in scan order. -/
def rowids (db : List Row) : List Nat :=
  db.map (fun r => r.rowid)

/-- The `WHERE claimant IS NULL AND odata IS NULL` filter of
`claim_batch`'s SELECT. -/
def unclaimedP (r : Row) : Bool :=
  decide (r.claimant = none) && decide (r.odata = none)

/-- Rowids of all currently claimable rows, in rowid order. -/
def unclaimedRowids (db : List Row) : List Nat :=
  (db.filter unclaimedP).map (fun r => r.rowid)

/-- `SELECT rowid FROM batch_data WHERE claimant IS NULL AND odata IS NULL
LIMIT batch_size` (batch.py line 67). -/
def claimSelect (db : List Row) (batchSize : Nat) : List Nat :=
  (unclaimedRowids db).take batchSize

/-- The `executemany` of `UPDATE batch_data SET claimant=? WHERE rowid=?`
over the selected rowids (batch.py lines 69-71). -/
def setClaimant (db : List Row) (sel : List Nat) (k : Int) : List Row :=
  db.map (fun r => if r.rowid ∈ sel then { r with claimant := some k } else r)

/-- The re-read `SELECT rowid, ... FROM batch_data WHERE rowid=?` plus
`run.Case` construction (batch.py lines 74-83). -/
def readCase (db : List Row) (rid : Nat) : Option CaseHandle :=
  (db.find? (fun r => r.rowid == rid)).map handleOfRow

/-- `Database.claim_batch(claim_key, batch_size)` (batch.py lines 60-85):
raises `ValueError` on a `None` claim key; otherwise, atomically (the
whole body runs under `self.lock` and a `BEGIN EXCLUSIVE` transaction)
selects up to `batch_size` rows with `claimant IS NULL AND odata IS NULL`,
sets their `claimant` to the key, and returns fresh `run.Case` copies of
the selected rows. -/
def claim_batch (db : List Row) (key : Option Int) (batchSize : Nat) :
    Except PyErr (List CaseHandle × List Row) :=
  match key with
  | none => .error .valueError
  | some k =>
    let sel := claimSelect db batchSize
    let db' := setClaimant db sel k
    .ok (sel.filterMap (readCase db'), db')

/-- Row update performed by the `UPDATE batch_data SET odata=? WHERE
rowid=?` of `Database.write_results`. -/
def writeFun (rid : Nat) (js : List (String × Json)) (r : Row) : Row :=
  if r.rowid = rid then { r with odata := some js } else r

/-- `Database.write_results(case, odata)` (batch.py lines 87-94):
`UPDATE batch_data SET odata=? WHERE rowid=?` with `json.dumps(odata)` as
the new value; `json.dumps` raises `TypeError` on unserializable values;
a rowid matching no row updates nothing and raises nothing. -/
def write_results (db : List Row) (rid : Nat) (p : Payload) :
    Except PyErr (List Row) :=
  match dumpsPayload p with
  | none => .error .typeError
  | some js => .ok (db.map (writeFun rid js))

/-- `Database.total_cases` (batch.py lines 96-98). -/
def total_cases (db : List Row) : Nat :=
  db.length

/-- `Database.finished_cases`: `count(*) WHERE odata IS NOT NULL`
(batch.py lines 100-102). -/
def finished_cases (db : List Row) : Nat :=
  (db.filter (fun r => decide (r.odata ≠ none))).length

/-- `Database.progressing_cases`: `count(*) WHERE claimant IS NOT NULL AND
odata IS NULL` (batch.py lines 104-106). -/
def progressing_cases (db : List Row) : Nat :=
  (db.filter (fun r => decide (r.claimant ≠ none) && decide (r.odata = none))).length

/-- The table after `Database.clean`: `UPDATE batch_data SET claimant=NULL
WHERE odata IS NULL` (batch.py lines 108-112). -/
def cleanDb (db : List Row) : List Row :=
  db.map (fun r => if r.odata = none then { r with claimant := none } else r)

/-- `Database.clean`, returning the cursor rowcount (number of rows the
UPDATE matched) together with the updated table. -/
def clean (db : List Row) : Nat × List Row :=
  ((db.filter (fun r => decide (r.odata = none))).length, cleanDb db)

/-- The table after `Database.reset`: `UPDATE batch_data SET
claimant=NULL, odata=NULL` (batch.py lines 114-118). -/
def resetDb (db : List Row) : List Row :=
  db.map (fun r => { r with claimant := none, odata := none })

/-- `Database.reset`, returning the rowcount and the updated table. -/
def reset (db : List Row) : Nat × List Row :=
  (db.length, resetDb db)

/-- `Database.iter_results` (batch.py lines 120-126), projected to what
the claims consume: for every row with `odata IS NOT NULL`, the rowid and
`json.loads` of the stored payload. -/
def iter_results (db : List Row) : List (Nat × Option Payload) :=
  db.filterMap (fun r => r.odata.map (fun js => (r.rowid, loadsPayload js)))

/-- How a `BatchExecutor` run can end: `natFinished` models reaching
`self.finished = True; return` after an empty claim; `crashed` models an
uncaught exception killing the thread (`self.finished` stays `False`);
`outOfTime` marks exhausted fuel in the embedding (the loop was still
running). -/
inductive Outcome : Type where
  | natFinished
  | crashed
  | outOfTime
deriving DecidableEq

/-- The external executor (`self.intf.run(case, tmout)` in
`BatchExecutor.run`): returns a payload, or `none` when it raises. -/
abbrev Exec : Type := CaseHandle → Option Payload

/-- The per-batch loop of `BatchExecutor.run` (batch.py lines 163-165):
run the executor on each case and write its result back; an executor
exception or a write exception propagates, leaving the table as already
written and reporting a crash (`true`). -/
def processCases (ex : Exec) : List CaseHandle → List Row → List Row × Bool
  | [], db => (db, false)
  | c :: cs, db =>
    match ex c with
    | none => (db, true)
    | some p =>
      match write_results db c.rowid p with
      | .error _ => (db, true)
      | .ok db' => processCases ex cs db'

/-- `BatchExecutor.run` (batch.py lines 152-167), with fuel bounding the
number of claim iterations.  Returns the list of claimed batches (as
rowid lists, the final empty claim included), the final table, and the
outcome.  `key` is the thread's `self.ident` claim key. -/
def workerRun (ex : Exec) (key : Int) (batchSize : Nat) :
    Nat → List Row → List (List Nat) × List Row × Outcome
  | 0, db => ([], db, .outOfTime)
  | fuel + 1, db =>
    match claim_batch db (some key) batchSize with
    | .error _ => ([], db, .crashed)
    | .ok (cases, db1) =>
      if cases.isEmpty then ([[]], db1, .natFinished)
      else
        match processCases ex cases db1 with
        | (db2, true) => ([cases.map (fun c => c.rowid)], db2, .crashed)
        | (db2, false) =>
          let rest := workerRun ex key batchSize fuel db2
          (cases.map (fun c => c.rowid) :: rest.1, rest.2.1, rest.2.2)

/-- One supervisor slot in `cmd_run`: the liveness flag of the
`BatchExecutor` thread (`t.is_alive()`), its `finished` flag, and a
generation counter incremented each time the slot is rebuilt with a fresh
`FSTInterface` and a fresh `BatchExecutor` (so "fresh Executor and
Worker" is visible in the state). -/
structure Slot : Type where
  alive : Bool
  finished : Bool
  gen : Nat
deriving DecidableEq

/-- The restart check of `cmd_run`'s monitor loop (batch.py lines
413-430): a slot whose thread is neither alive nor finished is treated as
crashed and replaced by a freshly started worker. -/
def restartSlot (s : Slot) : Slot :=
  if s.alive = false ∧ s.finished = false then
    { alive := true, finished := false, gen := s.gen + 1 }
  else s

/-- One poll of the supervisor over all slots. -/
def superPoll (slots : List Slot) : List Slot :=
  slots.map restartSlot

/-- The supervisor loop of `cmd_run` (batch.py lines 409-433): at each
iteration, exit if every slot's worker reports `finished`; otherwise
restart the dead unfinished slots and sleep, during which the running
workers change the slot states (modelled by the environment `env`).
Fuel bounds the number of polls; `none` means the loop was still
running. -/
def superRun (env : Nat → List Slot → List Slot) :
    Nat → Nat → List Slot → Option (List Slot)
  | 0, _, _ => none
  | fuel + 1, t, slots =>
    if slots.all (fun s => s.finished) then some slots
    else superRun env fuel (t + 1) (env t (superPoll slots))

/-- One iteration of `ProgressObserver.run` (batch.py lines 176-185),
projected to the data it computes: the three aggregate counts and the
finished percentage `100*finished/total`, whose Python division raises
`ZeroDivisionError` when the store has no cases. -/
def reportCounts (db : List Row) : Except PyErr (Nat × Nat × Nat × Rat) :=
  let total := total_cases db
  let finished := finished_cases db
  let progressing := progressing_cases db
  if total = 0 then .error .zeroDivisionError
  else .ok (progressing, finished, total, (100 * finished : Rat) / total)

/-- A scalar in the sense of the Executor contract, restricted to the
JSON-serializable ones (integer / float / string, not bytes). -/
def scalarNoBytes : PyVal → Bool
  | .vInt _ => true
  | .vFloat _ => true
  | .vStr _ => true
  | _ => false

/-- A contract-conforming payload value with no binary scalar: a
serializable scalar or a list of serializable scalars. -/
def contractValNoBytes : PyVal → Bool
  | .vList xs => xs.all scalarNoBytes
  | v => scalarNoBytes v

/-- A contract-conforming payload (string keys to values) with no binary
scalar anywhere. -/
def contractPayloadNoBytes (p : Payload) : Bool :=
  p.all (fun kv => contractValNoBytes kv.2)

/-- N claim calls against the shared store, serialized in the given
order (each `Database.claim_batch` holds `self.lock` of the single shared
`Database` for its whole body, so any concurrent execution of N calls is
some serialization of them).  Returns the claimed batches, as rowid
lists, and the final table. -/
def claimMany (db : List Row) (keys : List Int) (batchSize : Nat) :
    List (List Nat) × List Row :=
  match keys with
  | [] => ([], db)
  | k :: ks =>
    match claim_batch db (some k) batchSize with
    | .error _ => ([], db)
    | .ok (cases, db1) =>
      let rest := claimMany db1 ks batchSize
      (cases.map (fun c => c.rowid) :: rest.1, rest.2)

/-- A store operation other than `reset`, for stating what can happen to
a completed row over any sequence of non-reset API calls. -/
inductive Op : Type where
  | opClaim (k : Int) (bs : Nat)
  | opWrite (rid : Nat) (p : Payload)
  | opClean
deriving DecidableEq

/-- The table after one operation (a claim that raises, or a write whose
payload fails to serialize, leaves the table unchanged). -/
def applyOp (db : List Row) : Op → List Row
  | .opClaim k bs =>
    match claim_batch db (some k) bs with
    | .ok (_, db') => db'
    | .error _ => db
  | .opWrite rid p =>
    match write_results db rid p with
    | .ok db' => db'
    | .error _ => db
  | .opClean => cleanDb db

/-- The table after a sequence of operations. -/
def applyOps (db : List Row) : List Op → List Row
  | [] => db
  | op :: ops => applyOps (applyOp db op) ops

/-- The rowids returned by one operation (only a claim returns rows). -/
def opReturns (db : List Row) : Op → List Nat
  | .opClaim _ bs => claimSelect db bs
  | _ => []

/-- The rowid batches returned along a sequence of operations. -/
def traceReturns (db : List Row) : List Op → List (List Nat)
  | [] => []
  | op :: ops => opReturns db op :: traceReturns (applyOp db op) ops

/-! Concrete fixtures for scenario claims. -/

/-- A case record with every nullable input column NULL. -/
def noFields : CaseFields := ⟨none, none, none, none, none, none, none⟩

/-- An unclaimed, result-less row with the given rowid. -/
def urow (rid : Nat) : Row :=
  { rowid := rid, fields := noFields, claimant := none, odata := none }

/-- A store of five unclaimed cases, rowids 1-5. -/
def db5 : List Row := [urow 1, urow 2, urow 3, urow 4, urow 5]

/-- An executor that succeeds on every case with an empty payload. -/
def exOk : Exec := fun _ => some []

/-- A store of two unclaimed cases, rowids 1 and 2. -/
def dbTwo : List Row := [urow 1, urow 2]

/-- An executor that raises on the case with rowid 2 and succeeds
elsewhere. -/
def exFail2 : Exec := fun c => if c.rowid = 2 then none else some []

/-- The store state after the crashed run of `exFail2` over `dbTwo`. -/
def dbAfterCrash : List Row := (workerRun exFail2 7 2 9 dbTwo).2.1

/-- A one-row store (rowid 1, unclaimed, no result). -/
def dbOne : List Row := [urow 1]

/-- A completed row: rowid 1 with a stored result `{"x": 0}`. -/
def doneRow : Row :=
  { rowid := 1, fields := noFields, claimant := none,
    odata := some [("x", Json.jInt 0)] }

/-- The row `doneRow` after its result is overwritten with `{"x": 1}`. -/
def doneRowOverwritten : Row :=
  { doneRow with odata := some [("x", Json.jInt 1)] }

/-- An abandoned row: rowid 2, claimed by worker 5, no result. -/
def abandonedRow : Row :=
  { rowid := 2, fields := noFields, claimant := some 5, odata := none }

/-- A store holding one completed row and one abandoned row. -/
def dbMixed : List Row := [doneRow, abandonedRow]

/-! Theorems. -/

/-- C4: with two claimed-in-one-batch cases and an executor raising on
the second, the worker claims the single batch `[1, 2]` and crashes
(never marking itself finished, with no retry of the failing case); the
first case ends with its result written and the second stays claimed with
a NULL result, so `progressing_cases` reports 1 and `finished_cases` 1;
after `clean`, `progressing_cases` reports 0 and a fresh `claim_batch`
returns exactly the abandoned case 2. -/
theorem worker_crash_second_case :
    (workerRun exFail2 7 2 9 dbTwo).1 = [[1, 2]]
    ∧ (workerRun exFail2 7 2 9 dbTwo).2.2 = Outcome.crashed
    ∧ dbAfterCrash =
        [{ rowid := 1, fields := noFields, claimant := some 7, odata := some [] },
         { rowid := 2, fields := noFields, claimant := some 7, odata := none }]
    ∧ progressing_cases dbAfterCrash = 1
    ∧ finished_cases dbAfterCrash = 1
    ∧ progressing_cases (clean dbAfterCrash).2 = 0
    ∧ (claim_batch (clean dbAfterCrash).2 (some 9) 64).toOption.map
        (fun x => x.1.map (fun c => c.rowid)) = some [2] := by
  refine ⟨?_, ?_, ?_, ?_, ?_, ?_, ?_⟩ <;> decide

/-- C5: a single worker with batch size 2 over a store of five cases
claims the batches `[1, 2]`, `[3, 4]`, `[5]` and then an empty batch,
finishing naturally only on the empty claim: after three claim
iterations the worker is still running (not finished), and on the fourth
(empty) claim it reports `natFinished`. -/
theorem worker_drains_five_in_batches :
    (workerRun exOk 7 2 4 db5).1 = [[1, 2], [3, 4], [5], []]
    ∧ (workerRun exOk 7 2 4 db5).2.2 = Outcome.natFinished
    ∧ (workerRun exOk 7 2 3 db5).1 = [[1, 2], [3, 4], [5]]
    ∧ (workerRun exOk 7 2 3 db5).2.2 = Outcome.outOfTime := by
  refine ⟨?_, ?_, ?_, ?_⟩ <;> decide

/-- C10: on a store containing zero cases, the Progress Reporter's
per-iteration computation `100*finished/total` divides by zero and
raises `ZeroDivisionError`, killing the reporter thread — the iteration
is not total as the claim states. -/
theorem progress_report_empty_store_raises :
    reportCounts [] = Except.error PyErr.zeroDivisionError := rfl

/-- C6 counterexample: writing a result for rowid 99, which does not
exist in the one-row store `dbOne`, succeeds silently (the UPDATE matches
no row and the store is returned unchanged) instead of failing with an
`InvalidTarget` error as the claim states. -/
theorem write_results_missing_row_silent :
    write_results dbOne 99 [] = Except.ok dbOne := rfl

/-- Helper: a result write whose rowid matches no row leaves every row
unchanged. -/
theorem writeFun_map_id (rid : Nat) (js : List (String × Json)) :
    ∀ db : List Row, rid ∉ rowids db → db.map (writeFun rid js) = db
  | [], _ => rfl
  | a :: t, h => by
    have ha : ¬ a.rowid = rid := by
      intro he
      exact h (by simp [rowids, he])
    have ht : rid ∉ rowids t := by
      intro hm
      apply h
      simp only [rowids, List.map_cons, List.mem_cons]
      exact Or.inr hm
    simp only [List.map_cons, writeFun, if_neg ha,
      writeFun_map_id rid js t ht]

/-- C6 (amended): `write_results` on a serializable payload never raises;
targeting a nonexistent rowid leaves the store unchanged and returns
success; targeting an existing rowid sets exactly that row's result to
the serialized payload; and a second write to the same rowid overwrites
the first. -/
theorem write_results_amended (db : List Row) (rid : Nat) (p1 p2 : Payload)
    (js1 : List (String × Json)) (h1 : dumpsPayload p1 = some js1) :
    (rid ∉ rowids db → write_results db rid p1 = Except.ok db)
    ∧ (∀ db', write_results db rid p1 = Except.ok db' →
        (∀ r ∈ db', r.rowid = rid → r.odata = some js1)
        ∧ (∀ r ∈ db, r.rowid ≠ rid → r ∈ db'))
    ∧ (∀ db', write_results db rid p1 = Except.ok db' →
        write_results db' rid p2 = write_results db rid p2) := by
  have hw : write_results db rid p1 = Except.ok (db.map (writeFun rid js1)) := by
    unfold write_results
    rw [h1]
  refine ⟨?_, ?_, ?_⟩
  · intro hrid
    rw [hw, writeFun_map_id rid js1 db hrid]
  · intro db' hdb'
    rw [hw] at hdb'
    injection hdb' with he
    subst he
    constructor
    · intro r hr hrid
      rcases List.mem_map.mp hr with ⟨r0, hr0, hfr⟩
      by_cases h : r0.rowid = rid
      · rw [← hfr]
        simp [writeFun, h]
      · rw [← hfr] at hrid
        simp [writeFun, h] at hrid
    · intro r hr hrneq
      exact List.mem_map.mpr ⟨r, hr, by simp [writeFun, hrneq]⟩
  · intro db' hdb'
    rw [hw] at hdb'
    injection hdb' with he
    subst he
    unfold write_results
    cases h2 : dumpsPayload p2 with
    | none => rfl
    | some js2 =>
      have hcomp : (writeFun rid js2) ∘ (writeFun rid js1) = writeFun rid js2 := by
        funext r
        by_cases h : r.rowid = rid
        · simp [writeFun, h]
        · simp [writeFun, h]
      simp only [List.map_map, hcomp]

/-- C6 (amended) witness: the amended write behaviour at the concrete
one-row store `dbOne` and the nonexistent rowid 99. -/
theorem write_results_amended_witness :
    dumpsPayload ([] : Payload) = some []
    ∧ ((99 ∉ rowids dbOne → write_results dbOne 99 [] = Except.ok dbOne)
      ∧ (∀ db', write_results dbOne 99 [] = Except.ok db' →
          (∀ r ∈ db', r.rowid = 99 → r.odata = some [])
          ∧ (∀ r ∈ dbOne, r.rowid ≠ 99 → r ∈ db'))
      ∧ (∀ db', write_results dbOne 99 [] = Except.ok db' →
          write_results db' 99 [("x", PyVal.vInt 1)] =
            write_results dbOne 99 [("x", PyVal.vInt 1)])) :=
  ⟨rfl, write_results_amended dbOne 99 [] [("x", PyVal.vInt 1)] [] rfl⟩

/-- C7 counterexample: a payload containing a binary scalar — allowed by
the Executor contract in the claim — makes `write_results` raise
`TypeError` from `json.dumps` (bytes are not JSON serializable), so the
payload is not persisted. -/
theorem write_results_bytes_payload_raises :
    write_results dbOne 1 [("a", PyVal.vBytes [0])] =
      Except.error PyErr.typeError := rfl

/-- Helper: setting claimants never changes the rowid column. -/
theorem rowids_setClaimant (db : List Row) (sel : List Nat) (k : Int) :
    rowids (setClaimant db sel k) = rowids db := by
  unfold rowids setClaimant
  rw [List.map_map]
  congr 1
  funext r
  by_cases h : r.rowid ∈ sel
  · simp [h]
  · simp [h]

/-- Helper: `unclaimedP` decomposed. -/
theorem unclaimedP_iff (r : Row) :
    unclaimedP r = true ↔ (r.claimant = none ∧ r.odata = none) := by
  simp [unclaimedP]

/-- Helper: the claimable rowids after a claimant update are the
previously claimable ones outside the updated selection. -/
theorem unclaimed_setClaimant (sel : List Nat) (k : Int) :
    ∀ db : List Row, unclaimedRowids (setClaimant db sel k) =
      (unclaimedRowids db).filter (fun x => decide (x ∉ sel))
  | [] => rfl
  | r :: t => by
    have ih := unclaimed_setClaimant sel k t
    unfold unclaimedRowids setClaimant at ih ⊢
    simp only [List.map_cons]
    by_cases h : r.rowid ∈ sel
    · rw [if_pos h]
      simp only [List.filter_cons]
      have hf : unclaimedP { r with claimant := some k } = false := by
        simp [unclaimedP]
      rw [hf]
      simp only [Bool.false_eq_true, if_false]
      rw [ih]
      by_cases hu : unclaimedP r = true
      · rw [if_pos hu]
        simp only [List.map_cons, List.filter_cons]
        have hd : decide (r.rowid ∉ sel) = false := by simp [h]
        rw [hd]
        simp
      · rw [if_neg hu]
    · rw [if_neg h]
      simp only [List.filter_cons]
      by_cases hu : unclaimedP r = true
      · rw [if_pos hu, if_pos hu]
        simp only [List.map_cons, List.filter_cons]
        have hd : decide (r.rowid ∉ sel) = true := by simp [h]
        rw [hd]
        simp only [if_true]
        rw [ih]
      · rw [if_neg hu, if_neg hu]
        exact ih

/-- Helper: in a duplicate-free list, filtering away the first n elements
leaves exactly the rest. -/
theorem filter_not_take (u : List Nat) :
    ∀ n : Nat, u.Nodup →
      u.filter (fun x => decide (x ∉ u.take n)) = u.drop n := by
  induction u with
  | nil => intro n _; simp
  | cons a t ih =>
    intro n h
    cases n with
    | zero =>
      simp only [List.take_zero, List.drop_zero]
      have : ∀ x : Nat, decide (x ∉ ([] : List Nat)) = true := by
        intro x
        simp
      simp [this]
    | succ n =>
      simp only [List.take_succ_cons, List.drop_succ_cons, List.filter_cons]
      have ha : decide (a ∉ a :: t.take n) = false := by simp
      rw [ha]
      simp only [Bool.false_eq_true, if_false]
      have hnd := List.nodup_cons.mp h
      have hcong : t.filter (fun x => decide (x ∉ a :: t.take n)) =
          t.filter (fun x => decide (x ∉ t.take n)) := by
        apply List.filter_congr
        intro x hx
        have hxa : ¬ x = a := fun he => hnd.1 (he ▸ hx)
        simp [List.mem_cons, hxa]
      rw [hcong, ih n hnd.2]

/-- Helper: claimable rowids are duplicate-free when the table's rowids
are. -/
theorem unclaimedRowids_nodup (db : List Row) (h : (rowids db).Nodup) :
    (unclaimedRowids db).Nodup := by
  have hsub : List.Sublist (unclaimedRowids db) (rowids db) := by
    unfold unclaimedRowids rowids
    exact (List.filter_sublist db).map (fun r => r.rowid)
  exact h.sublist hsub

/-- Helper: the claim SELECT only returns rowids present in the table. -/
theorem claimSelect_subset_rowids (db : List Row) (bs : Nat) :
    ∀ rid ∈ claimSelect db bs, rid ∈ rowids db := by
  intro rid hrid
  have h1 : rid ∈ unclaimedRowids db := List.mem_of_mem_take hrid
  rcases List.mem_map.mp h1 with ⟨r, hr, hrw⟩
  exact hrw ▸ List.mem_map_of_mem _ (List.mem_of_mem_filter hr)

/-- Helper: the claim SELECT only returns claimable rowids. -/
theorem claimSelect_subset_unclaimed (db : List Row) (bs : Nat) :
    ∀ rid ∈ claimSelect db bs, rid ∈ unclaimedRowids db := by
  intro rid hrid
  exact List.mem_of_mem_take hrid

/-- Helper: re-reading a present rowid yields a handle with that rowid. -/
theorem readCase_mem (db : List Row) (rid : Nat) (h : rid ∈ rowids db) :
    ∃ ch, readCase db rid = some ch ∧ ch.rowid = rid := by
  rcases List.mem_map.mp h with ⟨r, hr, hrw⟩
  have hsome : (db.find? (fun r' => r'.rowid == rid)).isSome := by
    rw [List.find?_isSome]
    exact ⟨r, hr, by simp [hrw]⟩
  rcases Option.isSome_iff_exists.mp hsome with ⟨r', hr'⟩
  have hp := List.find?_some hr'
  simp only [beq_iff_eq] at hp
  exact ⟨handleOfRow r', by simp [readCase, hr'], by simp [handleOfRow, hp]⟩

/-- Helper: re-reading a list of present rowids returns handles carrying
exactly those rowids, in order. -/
theorem readCases_rowids : ∀ (sel : List Nat) (db : List Row),
    (∀ rid ∈ sel, rid ∈ rowids db) →
    (sel.filterMap (readCase db)).map (fun c => c.rowid) = sel
  | [], _, _ => rfl
  | rid :: rest, db, h => by
    obtain ⟨ch, hch, hrw⟩ := readCase_mem db rid (h rid (by simp))
    simp only [List.filterMap_cons, hch, List.map_cons, hrw]
    rw [readCases_rowids rest db (fun x hx => h x (List.mem_cons_of_mem _ hx))]

/-- Helper: the shape of a successful claim. -/
theorem claim_batch_eq (db : List Row) (k : Int) (bs : Nat) :
    claim_batch db (some k) bs =
      Except.ok
        ((claimSelect db bs).filterMap
            (readCase (setClaimant db (claimSelect db bs) k)),
         setClaimant db (claimSelect db bs) k) := rfl

/-- Helper: the rowids of the returned handles are the selected ones. -/
theorem claim_batch_rowids (db : List Row) (k : Int) (bs : Nat) :
    ((claimSelect db bs).filterMap
        (readCase (setClaimant db (claimSelect db bs) k))).map
      (fun c => c.rowid) = claimSelect db bs := by
  apply readCases_rowids
  intro rid hrid
  rw [rowids_setClaimant]
  exact claimSelect_subset_rowids db bs rid hrid

/-- Helper: updating an empty selection leaves the table unchanged. -/
theorem setClaimant_nil (k : Int) : ∀ db : List Row, setClaimant db [] k = db
  | [] => rfl
  | r :: t => by
    unfold setClaimant
    simp only [List.map_cons]
    rw [if_neg (List.not_mem_nil r.rowid)]
    have := setClaimant_nil k t
    unfold setClaimant at this
    rw [this]

/-- Helper: rows of a duplicate-free table are determined by rowid. -/
theorem row_unique (db : List Row) (hnd : (rowids db).Nodup) :
    ∀ r1 ∈ db, ∀ r2 ∈ db, r1.rowid = r2.rowid → r1 = r2 := by
  unfold rowids at hnd
  intro r1 h1 r2 h2 he
  exact List.inj_on_of_nodup_map hnd h1 h2 he

/-- C2: on any store with duplicate-free rowids and any (non-null) worker
key, `claim_batch` succeeds, returning at most `batchSize` cases, all
drawn from rows whose `claimant` and `odata` are both NULL and returned
as full copies of those rows; in the updated store exactly the selected
rows have `claimant` set to the key (all other rows are untouched); and
when no claimable row exists it returns an empty list and the unchanged
store rather than an error. -/
theorem claim_batch_spec (db : List Row) (k : Int) (bs : Nat)
    (hnd : (rowids db).Nodup) :
    ∃ cases db', claim_batch db (some k) bs = Except.ok (cases, db')
      ∧ cases.length ≤ bs
      ∧ cases.map (fun c => c.rowid) = claimSelect db bs
      ∧ (∀ c ∈ cases, ∃ r ∈ db,
          r.claimant = none ∧ r.odata = none ∧ c = handleOfRow r)
      ∧ (∀ r' ∈ db', r'.rowid ∈ claimSelect db bs → r'.claimant = some k)
      ∧ (∀ r ∈ db, r.rowid ∉ claimSelect db bs → r ∈ db')
      ∧ (unclaimedRowids db = [] →
          claim_batch db (some k) bs = Except.ok ([], db)) := by
  refine ⟨_, _, claim_batch_eq db k bs, ?_, claim_batch_rowids db k bs,
    ?_, ?_, ?_, ?_⟩
  · calc ((claimSelect db bs).filterMap _).length
        ≤ (claimSelect db bs).length := List.length_filterMap_le _ _
      _ ≤ bs := by
          unfold claimSelect
          exact List.length_take_le _ _
  · intro c hc
    rcases List.mem_filterMap.mp hc with ⟨rid, hsel, hread⟩
    unfold readCase at hread
    rcases Option.map_eq_some'.mp hread with ⟨r', hfind, hcr⟩
    have hr'mem : r' ∈ setClaimant db (claimSelect db bs) k :=
      List.mem_of_find?_eq_some hfind
    have hr'id : r'.rowid = rid := by
      have := List.find?_some hfind
      simpa using this
    rcases List.mem_map.mp hr'mem with ⟨r0, hr0, hfr⟩
    have hrow0 : r0.rowid = rid := by
      by_cases h : r0.rowid ∈ claimSelect db bs
      · rw [← hfr] at hr'id
        simpa [h] using hr'id
      · rw [← hfr] at hr'id
        simpa [h] using hr'id
    have hu : rid ∈ unclaimedRowids db :=
      claimSelect_subset_unclaimed db bs rid hsel
    rcases List.mem_map.mp hu with ⟨ru, hru, hruid⟩
    have hr0u : r0 = ru := by
      apply row_unique db hnd r0 hr0 ru (List.mem_of_mem_filter hru)
      rw [hrow0, ← hruid]
    have hun : unclaimedP ru = true := (List.mem_filter.mp hru).2
    rw [unclaimedP_iff] at hun
    refine ⟨r0, hr0, ?_, ?_, ?_⟩
    · rw [hr0u]
      exact hun.1
    · rw [hr0u]
      exact hun.2
    · rw [← hcr, ← hfr]
      by_cases h : r0.rowid ∈ claimSelect db bs
      · rw [if_pos h]
        rfl
      · rw [if_neg h]
  · intro r' hr' hsel
    rcases List.mem_map.mp hr' with ⟨r0, hr0, hfr⟩
    by_cases h : r0.rowid ∈ claimSelect db bs
    · rw [← hfr, if_pos h]
    · exfalso
      rw [← hfr, if_neg h] at hsel
      exact h hsel
  · intro r hr hnotsel
    show r ∈ List.map _ db
    exact List.mem_map.mpr ⟨r, hr, if_neg hnotsel⟩
  · intro hU
    rw [claim_batch_eq db k bs]
    unfold claimSelect
    rw [hU]
    simp only [List.take_nil, List.filterMap_nil, setClaimant_nil]

/-- C2 witness: the claim specification at the concrete five-row store,
worker key 7, batch size 2. -/
theorem claim_batch_spec_witness :
    (rowids db5).Nodup
    ∧ ∃ cases db', claim_batch db5 (some 7) 2 = Except.ok (cases, db')
      ∧ cases.length ≤ 2
      ∧ cases.map (fun c => c.rowid) = claimSelect db5 2
      ∧ (∀ c ∈ cases, ∃ r ∈ db5,
          r.claimant = none ∧ r.odata = none ∧ c = handleOfRow r)
      ∧ (∀ r' ∈ db', r'.rowid ∈ claimSelect db5 2 → r'.claimant = some 7)
      ∧ (∀ r ∈ db5, r.rowid ∉ claimSelect db5 2 → r ∈ db')
      ∧ (unclaimedRowids db5 = [] →
          claim_batch db5 (some 7) 2 = Except.ok ([], db5)) :=
  ⟨by decide, claim_batch_spec db5 7 2 (by decide)⟩

/-- Helper: unfolding one step of a serialized claim sequence. -/
theorem claimMany_cons (db : List Row) (k : Int) (ks : List Int) (bs : Nat) :
    claimMany db (k :: ks) bs =
      (claimSelect db bs ::
        (claimMany (setClaimant db (claimSelect db bs) k) ks bs).1,
       (claimMany (setClaimant db (claimSelect db bs) k) ks bs).2) := by
  show ((((claimSelect db bs).filterMap
        (readCase (setClaimant db (claimSelect db bs) k))).map
          (fun c => c.rowid)) ::
      (claimMany (setClaimant db (claimSelect db bs) k) ks bs).1,
      (claimMany (setClaimant db (claimSelect db bs) k) ks bs).2) = _
  rw [claim_batch_rowids db k bs]

/-- Helper: a claimant update stamps the worker key on every selected
row. -/
theorem setClaimant_claimant (db : List Row) (sel : List Nat) (k : Int) :
    ∀ rid ∈ sel, ∀ r1 ∈ setClaimant db sel k,
      r1.rowid = rid → r1.claimant = some k := by
  intro rid hrid r1 hr1 hr1id
  rcases List.mem_map.mp hr1 with ⟨r0, hr0, hfr⟩
  by_cases h : r0.rowid ∈ sel
  · rw [← hfr, if_pos h]
  · exfalso
    rw [← hfr, if_neg h] at hr1id
    exact h (hr1id ▸ hrid)

/-- Helper: once a row carries a claimant key, no later claim in a
serialized claim sequence overwrites it (later claims only select rows
whose claimant is NULL). -/
theorem claimMany_claimant_persist (bs : Nat) :
    ∀ (ks : List Int) (db : List Row) (rid : Nat) (k : Int),
    (∀ r ∈ db, r.rowid = rid → r.claimant = some k) →
    ∀ r' ∈ (claimMany db ks bs).2, r'.rowid = rid → r'.claimant = some k
  | [], db, rid, k, hinv => by
    intro r' hr'
    exact hinv r' hr'
  | k' :: ks, db, rid, k, hinv => by
    rw [claimMany_cons]
    apply claimMany_claimant_persist bs ks _ rid k
    intro r1 hr1 hr1id
    rcases List.mem_map.mp hr1 with ⟨r0, hr0, hfr⟩
    by_cases h : r0.rowid ∈ claimSelect db bs
    · exfalso
      rw [← hfr, if_pos h] at hr1id
      have hr0id : r0.rowid = rid := hr1id
      have hrid_in : rid ∈ unclaimedRowids db :=
        claimSelect_subset_unclaimed db bs rid (hr0id ▸ h)
      rcases List.mem_map.mp hrid_in with ⟨ru, hru, hruid⟩
      have hclk : ru.claimant = some k :=
        hinv ru (List.mem_of_mem_filter hru) hruid
      have hun := (List.mem_filter.mp hru).2
      rw [unclaimedP_iff] at hun
      rw [hun.1] at hclk
      exact Option.noConfusion hclk
    · rw [← hfr, if_neg h] at hr1id ⊢
      exact hinv r0 hr0 hr1id

/-- Helper: after one claim, the claimable rowids are what the claim did
not take. -/
theorem unclaimed_after_claim (db : List Row) (k : Int) (bs : Nat)
    (hnd : (rowids db).Nodup) :
    unclaimedRowids (setClaimant db (claimSelect db bs) k) =
      (unclaimedRowids db).drop bs := by
  rw [unclaimed_setClaimant]
  unfold claimSelect
  exact filter_not_take (unclaimedRowids db) bs (unclaimedRowids_nodup db hnd)

/-- Helper: when the claimable rows fit in the available claim capacity,
the serialized claims exhaust exactly the claimable rowids, in order. -/
theorem claimMany_flatten (bs : Nat) :
    ∀ (keys : List Int) (db : List Row),
    (rowids db).Nodup →
    (unclaimedRowids db).length ≤ keys.length * bs →
    (claimMany db keys bs).1.flatten = unclaimedRowids db
  | [], db, _, hM => by
    have hnil : unclaimedRowids db = [] := by simpa using hM
    simp [claimMany, hnil]
  | k :: ks, db, hnd, hM => by
    rw [claimMany_cons]
    simp only [List.flatten_cons]
    have hnd1 : (rowids (setClaimant db (claimSelect db bs) k)).Nodup := by
      rw [rowids_setClaimant]
      exact hnd
    have hU1 : unclaimedRowids (setClaimant db (claimSelect db bs) k) =
        (unclaimedRowids db).drop bs := unclaimed_after_claim db k bs hnd
    have hM1 : (unclaimedRowids (setClaimant db (claimSelect db bs) k)).length ≤
        ks.length * bs := by
      rw [hU1, List.length_drop]
      have h2 : (unclaimedRowids db).length ≤ ks.length * bs + bs := by
        have h3 := hM
        rw [List.length_cons, Nat.succ_mul] at h3
        exact h3
      set K := ks.length * bs with hK
      omega
    rw [claimMany_flatten bs ks _ hnd1 hM1, hU1]
    unfold claimSelect
    exact List.take_append_drop bs (unclaimedRowids db)

/-- Helper: each batch of a serialized claim sequence ends up, in the
final table, claimed by the key of the worker that claimed it. -/
theorem claimMany_zip_claimant (bs : Nat) :
    ∀ (keys : List Int) (db : List Row),
    ∀ pr ∈ ((claimMany db keys bs).1).zip keys, ∀ rid ∈ pr.1,
      ∀ r ∈ (claimMany db keys bs).2, r.rowid = rid → r.claimant = some pr.2
  | [], db => by
    intro pr hpr
    simp [claimMany] at hpr
  | k :: ks, db => by
    rw [claimMany_cons]
    intro pr hpr rid hrid r hr hrid2
    simp only [List.zip_cons_cons, List.mem_cons] at hpr
    rcases hpr with hpr | hpr
    · subst hpr
      exact claimMany_claimant_persist bs ks _ rid k
        (setClaimant_claimant db (claimSelect db bs) k rid hrid) r hr hrid2
    · exact claimMany_zip_claimant bs ks _ pr hpr rid hrid r hr hrid2

/-- C1: N serialized claim calls (the code serializes all concurrent
claims behind the shared lock) over a store with duplicate-free rowids
and at most `N * batchSize` claimable rows return batches whose
concatenation is exactly the claimable rowids, which are pairwise
disjoint; and in the final store every row of the i-th batch carries the
i-th caller's key as its unique claimant — no later claim ever overwrites
it, so no two workers ever hold the same case. -/
theorem claim_batches_disjoint_cover (db : List Row) (keys : List Int) (bs : Nat)
    (hnd : (rowids db).Nodup)
    (hM : (unclaimedRowids db).length ≤ keys.length * bs) :
    (claimMany db keys bs).1.flatten = unclaimedRowids db
    ∧ ((claimMany db keys bs).1).Pairwise List.Disjoint
    ∧ (∀ pr ∈ ((claimMany db keys bs).1).zip keys, ∀ rid ∈ pr.1,
        ∀ r ∈ (claimMany db keys bs).2, r.rowid = rid →
          r.claimant = some pr.2) := by
  have hflat := claimMany_flatten bs keys db hnd hM
  refine ⟨hflat, ?_, claimMany_zip_claimant bs keys db⟩
  have hnodup : ((claimMany db keys bs).1.flatten).Nodup := by
    rw [hflat]
    exact unclaimedRowids_nodup db hnd
  exact (List.nodup_flatten.mp hnodup).2

/-- C1 witness: three serialized claimers of batch size 2 on the five-row
store. -/
theorem claim_batches_disjoint_cover_witness :
    (rowids db5).Nodup
    ∧ (unclaimedRowids db5).length ≤ [7, 8, 9].length * 2
    ∧ ((claimMany db5 [7, 8, 9] 2).1.flatten = unclaimedRowids db5
      ∧ ((claimMany db5 [7, 8, 9] 2).1).Pairwise List.Disjoint
      ∧ (∀ pr ∈ ((claimMany db5 [7, 8, 9] 2).1).zip [7, 8, 9], ∀ rid ∈ pr.1,
          ∀ r ∈ (claimMany db5 [7, 8, 9] 2).2, r.rowid = rid →
            r.claimant = some pr.2)) :=
  ⟨by decide, by decide,
   claim_batches_disjoint_cover db5 [7, 8, 9] 2 (by decide) (by decide)⟩

mutual

/-- Helper: `json.loads` inverts `json.dumps` on a single value. -/
theorem loadsVal_dumpsVal : ∀ (v : PyVal) (j : Json),
    dumpsVal v = some j → loadsVal j = some v
  | .vInt n, j, h => by
    simp only [dumpsVal, Option.some.injEq] at h
    subst h
    rfl
  | .vFloat q, j, h => by
    simp only [dumpsVal, Option.some.injEq] at h
    subst h
    rfl
  | .vStr s, j, h => by
    simp only [dumpsVal, Option.some.injEq] at h
    subst h
    rfl
  | .vBytes b, j, h => by simp [dumpsVal] at h
  | .vList xs, j, h => by
    simp only [dumpsVal] at h
    cases hx : dumpsList xs with
    | none => rw [hx] at h; exact absurd h (by simp)
    | some js =>
      rw [hx] at h
      simp only [Option.some.injEq] at h
      subst h
      simp only [loadsVal, loadsList_dumpsList xs js hx]

/-- Helper: `json.loads` inverts `json.dumps` on a list of values. -/
theorem loadsList_dumpsList : ∀ (xs : List PyVal) (js : List Json),
    dumpsList xs = some js → loadsList js = some xs
  | [], js, h => by
    simp only [dumpsList, Option.some.injEq] at h
    subst h
    rfl
  | x :: xs, js, h => by
    simp only [dumpsList] at h
    cases hv : dumpsVal x with
    | none => rw [hv] at h; simp at h
    | some j =>
      cases hl : dumpsList xs with
      | none => rw [hv, hl] at h; simp at h
      | some js' =>
        rw [hv, hl] at h
        simp only [Option.some.injEq] at h
        subst h
        simp only [loadsList, loadsVal_dumpsVal x j hv,
          loadsList_dumpsList xs js' hl]

end

/-- Helper: `json.loads` inverts `json.dumps` on a payload dict. -/
theorem loadsPayload_dumpsPayload : ∀ (p : Payload) (js : List (String × Json)),
    dumpsPayload p = some js → loadsPayload js = some p
  | [], js, h => by
    simp only [dumpsPayload, Option.some.injEq] at h
    subst h
    rfl
  | (k, v) :: rest, js, h => by
    simp only [dumpsPayload] at h
    cases hv : dumpsVal v with
    | none => rw [hv] at h; simp at h
    | some j =>
      cases hr : dumpsPayload rest with
      | none => rw [hv, hr] at h; simp at h
      | some js' =>
        rw [hv, hr] at h
        simp only [Option.some.injEq] at h
        subst h
        simp only [loadsPayload, loadsVal_dumpsVal v j hv,
          loadsPayload_dumpsPayload rest js' hr]

/-- Helper: a serializable scalar has a JSON encoding. -/
theorem dumpsVal_scalar (v : PyVal) (h : scalarNoBytes v = true) :
    ∃ j, dumpsVal v = some j := by
  cases v with
  | vInt n => exact ⟨.jInt n, rfl⟩
  | vFloat q => exact ⟨.jFloat q, rfl⟩
  | vStr s => exact ⟨.jStr s, rfl⟩
  | vBytes b => exact absurd h (by simp [scalarNoBytes])
  | vList xs => exact absurd h (by simp [scalarNoBytes])

/-- Helper: a list of serializable scalars has a JSON encoding. -/
theorem dumpsList_scalars : ∀ xs : List PyVal,
    xs.all scalarNoBytes = true → ∃ js, dumpsList xs = some js
  | [], _ => ⟨[], rfl⟩
  | x :: xs, h => by
    rw [List.all_cons, Bool.and_eq_true] at h
    obtain ⟨j, hj⟩ := dumpsVal_scalar x h.1
    obtain ⟨js, hjs⟩ := dumpsList_scalars xs h.2
    exact ⟨j :: js, by simp [dumpsList, hj, hjs]⟩

/-- Helper: a contract value with no binary scalar has a JSON encoding. -/
theorem dumpsVal_contract (v : PyVal) (h : contractValNoBytes v = true) :
    ∃ j, dumpsVal v = some j := by
  cases v with
  | vList xs =>
    obtain ⟨js, hjs⟩ :=
      dumpsList_scalars xs (by simpa [contractValNoBytes] using h)
    exact ⟨.jArr js, by simp [dumpsVal, hjs]⟩
  | vInt n => exact ⟨.jInt n, rfl⟩
  | vFloat q => exact ⟨.jFloat q, rfl⟩
  | vStr s => exact ⟨.jStr s, rfl⟩
  | vBytes b => exact absurd h (by simp [contractValNoBytes, scalarNoBytes])

/-- Helper: a contract payload with no binary scalar serializes. -/
theorem dumpsPayload_contract : ∀ p : Payload,
    contractPayloadNoBytes p = true → ∃ js, dumpsPayload p = some js
  | [], _ => ⟨[], rfl⟩
  | (k, v) :: rest, h => by
    unfold contractPayloadNoBytes at h
    rw [List.all_cons, Bool.and_eq_true] at h
    obtain ⟨j, hj⟩ := dumpsVal_contract v h.1
    obtain ⟨js, hjs⟩ := dumpsPayload_contract rest h.2
    exact ⟨(k, j) :: js, by simp [dumpsPayload, hj, hjs]⟩

/-- C7 (amended): for a payload conforming to the Executor contract with
its scalars restricted to the JSON-serializable ones (integer, float,
string — no binary), `write_results` persists it successfully on any
existing row, and reading the stored results back through `iter_results`
yields a payload equal to the one written. -/
theorem write_result_roundtrip (db : List Row) (r : Row) (p : Payload)
    (hr : r ∈ db) (hp : contractPayloadNoBytes p = true) :
    ∃ db', write_results db r.rowid p = Except.ok db'
      ∧ (r.rowid, some p) ∈ iter_results db' := by
  obtain ⟨js, hjs⟩ := dumpsPayload_contract p hp
  refine ⟨db.map (writeFun r.rowid js), ?_, ?_⟩
  · unfold write_results
    rw [hjs]
  · have hmem : writeFun r.rowid js r ∈ db.map (writeFun r.rowid js) :=
      List.mem_map_of_mem _ hr
    have hw : writeFun r.rowid js r = { r with odata := some js } := by
      simp [writeFun]
    rw [hw] at hmem
    unfold iter_results
    apply List.mem_filterMap.mpr
    exact ⟨{ r with odata := some js }, hmem,
      by simp [loadsPayload_dumpsPayload p js hjs]⟩

/-- C7 (amended) witness: the roundtrip at the one-row store `dbOne` and
the payload `{"x": 1}`. -/
theorem write_result_roundtrip_witness :
    urow 1 ∈ dbOne
    ∧ contractPayloadNoBytes [("x", PyVal.vInt 1)] = true
    ∧ ∃ db', write_results dbOne (urow 1).rowid [("x", PyVal.vInt 1)] = Except.ok db'
        ∧ ((urow 1).rowid, some [("x", PyVal.vInt 1)]) ∈ iter_results db' :=
  ⟨by decide, by decide,
   write_result_roundtrip dbOne (urow 1) [("x", PyVal.vInt 1)] (by decide) (by decide)⟩

/-- Helper: no store operation changes the rowid column. -/
theorem rowids_applyOp (db : List Row) (op : Op) :
    rowids (applyOp db op) = rowids db := by
  cases op with
  | opClaim k bs =>
    show rowids (setClaimant db (claimSelect db bs) k) = rowids db
    exact rowids_setClaimant db _ k
  | opWrite rid p =>
    show rowids (match write_results db rid p with
      | Except.ok db2 => db2
      | Except.error _ => db) = rowids db
    cases h : write_results db rid p with
    | error e => rfl
    | ok db' =>
      unfold write_results at h
      cases hd : dumpsPayload p with
      | none =>
        rw [hd] at h
        exact absurd h (by simp)
      | some js =>
        rw [hd] at h
        simp only [Except.ok.injEq] at h
        subst h
        unfold rowids
        rw [List.map_map]
        congr 1
        funext r
        by_cases hh : r.rowid = rid
        · simp [writeFun, hh]
        · simp [writeFun, hh]
  | opClean =>
    show rowids (cleanDb db) = rowids db
    unfold cleanDb rowids
    rw [List.map_map]
    congr 1
    funext r
    by_cases hh : r.odata = none
    · simp [hh]
    · simp [hh]

/-- Helper: while some row with a given rowid has a non-null result, the
claim SELECT never returns that rowid. -/
theorem terminal_not_selected (db : List Row) (rid : Nat) (bs : Nat)
    (hnd : (rowids db).Nodup)
    (hex : ∃ r' ∈ db, r'.rowid = rid ∧ r'.odata ≠ none) :
    rid ∉ claimSelect db bs := by
  intro hsel
  rcases hex with ⟨r', hr', hrid, hod⟩
  have hu := claimSelect_subset_unclaimed db bs rid hsel
  rcases List.mem_map.mp hu with ⟨ru, hru, hruid⟩
  have hsame : ru = r' :=
    row_unique db hnd ru (List.mem_of_mem_filter hru) r' hr' (by rw [hruid, hrid])
  have hun := (List.mem_filter.mp hru).2
  rw [unclaimedP_iff] at hun
  exact hod (by rw [← hsame]; exact hun.2)

/-- Helper: every non-reset operation preserves "some row with this rowid
has a non-null result". -/
theorem terminal_preserved (db : List Row) (rid : Nat) (op : Op)
    (hex : ∃ r' ∈ db, r'.rowid = rid ∧ r'.odata ≠ none) :
    ∃ r' ∈ applyOp db op, r'.rowid = rid ∧ r'.odata ≠ none := by
  rcases hex with ⟨r', hr', hrid, hod⟩
  cases op with
  | opClaim k bs =>
    show ∃ x ∈ setClaimant db (claimSelect db bs) k, x.rowid = rid ∧ x.odata ≠ none
    refine ⟨(if r'.rowid ∈ claimSelect db bs then
        { r' with claimant := some k } else r'),
      List.mem_map_of_mem _ hr', ?_⟩
    by_cases h : r'.rowid ∈ claimSelect db bs
    · rw [if_pos h]
      exact ⟨hrid, hod⟩
    · rw [if_neg h]
      exact ⟨hrid, hod⟩
  | opWrite rid' p =>
    show ∃ x ∈ (match write_results db rid' p with
      | Except.ok db2 => db2
      | Except.error _ => db), x.rowid = rid ∧ x.odata ≠ none
    cases h : write_results db rid' p with
    | error e => exact ⟨r', hr', hrid, hod⟩
    | ok db' =>
      unfold write_results at h
      cases hd : dumpsPayload p with
      | none =>
        rw [hd] at h
        exact absurd h (by simp)
      | some js =>
        rw [hd] at h
        simp only [Except.ok.injEq] at h
        subst h
        refine ⟨writeFun rid' js r', List.mem_map_of_mem _ hr', ?_⟩
        unfold writeFun
        by_cases hh : r'.rowid = rid'
        · rw [if_pos hh]
          exact ⟨hrid, by simp⟩
        · rw [if_neg hh]
          exact ⟨hrid, hod⟩
  | opClean =>
    show ∃ x ∈ cleanDb db, x.rowid = rid ∧ x.odata ≠ none
    refine ⟨(if r'.odata = none then { r' with claimant := none } else r'),
      List.mem_map_of_mem _ hr', ?_⟩
    rw [if_neg hod]
    exact ⟨hrid, hod⟩

/-- Helper: over any sequence of non-reset operations, a rowid whose row
has a result is never returned by a claim and keeps a non-null result. -/
theorem terminal_row_invariant (rid : Nat) :
    ∀ (ops : List Op) (db : List Row),
    (rowids db).Nodup →
    (∃ r' ∈ db, r'.rowid = rid ∧ r'.odata ≠ none) →
    (∀ b ∈ traceReturns db ops, rid ∉ b)
    ∧ (∃ r' ∈ applyOps db ops, r'.rowid = rid ∧ r'.odata ≠ none)
  | [], db, _, hex =>
    ⟨fun b hb => absurd hb (List.not_mem_nil b), hex⟩
  | op :: ops, db, hnd, hex => by
    have hnd1 : (rowids (applyOp db op)).Nodup := by
      rw [rowids_applyOp]
      exact hnd
    have hex1 := terminal_preserved db rid op hex
    have ih := terminal_row_invariant rid ops (applyOp db op) hnd1 hex1
    constructor
    · intro b hb
      simp only [traceReturns, List.mem_cons] at hb
      rcases hb with hb | hb
      · subst hb
        cases op with
        | opClaim k bs => exact terminal_not_selected db rid bs hnd hex
        | opWrite rid' p => exact List.not_mem_nil rid
        | opClean => exact List.not_mem_nil rid
      · exact ih.1 b hb
    · exact ih.2

/-- C3 (amended): a row whose result is non-null is never returned by any
subsequent `claim_batch`, keeps a non-null result across any sequence of
claim / write / clean operations, and is left entirely unchanged by
`clean`; however `write_results` (as well as `reset`) can still alter its
stored result. -/
theorem completed_row_terminal (db : List Row) (ops : List Op) (r : Row)
    (hnd : (rowids db).Nodup) (hr : r ∈ db) (hres : r.odata ≠ none) :
    (∀ b ∈ traceReturns db ops, r.rowid ∉ b)
    ∧ (∃ r' ∈ applyOps db ops, r'.rowid = r.rowid ∧ r'.odata ≠ none)
    ∧ r ∈ (clean db).2 := by
  have h := terminal_row_invariant r.rowid ops db hnd ⟨r, hr, rfl, hres⟩
  refine ⟨h.1, h.2, ?_⟩
  show r ∈ List.map _ db
  exact List.mem_map.mpr ⟨r, hr, if_neg hres⟩

/-- C3 (amended) witness: the completed row of the mixed store across a
claim followed by a clean. -/
theorem completed_row_terminal_witness :
    (rowids dbMixed).Nodup ∧ doneRow ∈ dbMixed ∧ doneRow.odata ≠ none
    ∧ ((∀ b ∈ traceReturns dbMixed [Op.opClaim 7 64, Op.opClean],
          doneRow.rowid ∉ b)
      ∧ (∃ r' ∈ applyOps dbMixed [Op.opClaim 7 64, Op.opClean],
          r'.rowid = doneRow.rowid ∧ r'.odata ≠ none)
      ∧ doneRow ∈ (clean dbMixed).2) :=
  ⟨by decide, by decide, by decide,
   completed_row_terminal dbMixed [Op.opClaim 7 64, Op.opClean] doneRow
     (by decide) (by decide) (by decide)⟩

/-- Helper: after `clean`, the claimable rowids are exactly those of rows
without a result. -/
theorem unclaimed_cleanDb : ∀ db : List Row,
    unclaimedRowids (cleanDb db) =
      (db.filter (fun r => decide (r.odata = none))).map (fun r => r.rowid)
  | [] => rfl
  | r :: t => by
    have ih := unclaimed_cleanDb t
    unfold unclaimedRowids cleanDb at ih ⊢
    simp only [List.map_cons]
    by_cases h : r.odata = none
    · rw [if_pos h]
      rw [List.filter_cons_of_pos (by simp [unclaimedP, h]),
        List.filter_cons_of_pos (by simp [h])]
      simp only [List.map_cons]
      congr 1
    · rw [if_neg h]
      rw [List.filter_cons_of_neg (by simp [unclaimedP, h]),
        List.filter_cons_of_neg (by simp [h])]
      exact ih

/-- Helper: after `reset`, every row is claimable. -/
theorem unclaimed_resetDb : ∀ db : List Row,
    unclaimedRowids (resetDb db) = rowids db
  | [] => rfl
  | r :: t => by
    have ih := unclaimed_resetDb t
    unfold unclaimedRowids resetDb rowids at ih ⊢
    simp only [List.map_cons]
    rw [List.filter_cons_of_pos (by simp [unclaimedP])]
    simp only [List.map_cons]
    congr 1

/-- C8: on any store, a previously abandoned row (claimed, no result) is
re-selected by a `claim_batch` large enough after `clean`, and a
previously completed row (result set) is re-selected by a `claim_batch`
large enough after `reset`. -/
theorem clean_reset_reselect (db : List Row) (r : Row) (key : Int)
    (hr : r ∈ db) :
    (r.claimant ≠ none → r.odata = none →
      ∃ cases db2, claim_batch (clean db).2 (some key) (total_cases db) =
          Except.ok (cases, db2)
        ∧ r.rowid ∈ cases.map (fun c => c.rowid))
    ∧ (r.odata ≠ none →
      ∃ cases db2, claim_batch (reset db).2 (some key) (total_cases db) =
          Except.ok (cases, db2)
        ∧ r.rowid ∈ cases.map (fun c => c.rowid)) := by
  constructor
  · intro hcl hod
    refine ⟨_, _, claim_batch_eq (cleanDb db) key (total_cases db), ?_⟩
    rw [claim_batch_rowids]
    unfold claimSelect
    rw [unclaimed_cleanDb]
    have hlen : ((db.filter (fun r => decide (r.odata = none))).map
        (fun r => r.rowid)).length ≤ total_cases db := by
      unfold total_cases
      rw [List.length_map]
      exact List.length_filter_le _ _
    rw [List.take_of_length_le hlen]
    exact List.mem_map_of_mem _ (List.mem_filter.mpr ⟨hr, by simp [hod]⟩)
  · intro hod
    refine ⟨_, _, claim_batch_eq (resetDb db) key (total_cases db), ?_⟩
    rw [claim_batch_rowids]
    unfold claimSelect
    rw [unclaimed_resetDb]
    have hlen : (rowids db).length ≤ total_cases db := by
      unfold rowids total_cases
      rw [List.length_map]
    rw [List.take_of_length_le hlen]
    exact List.mem_map_of_mem _ hr

/-- C8 witness: the abandoned row of the mixed store is reclaimed after
`clean`, and its completed row after `reset`. -/
theorem clean_reset_reselect_witness :
    abandonedRow ∈ dbMixed
    ∧ (∃ cases db2, claim_batch (clean dbMixed).2 (some 9) (total_cases dbMixed) =
          Except.ok (cases, db2)
        ∧ abandonedRow.rowid ∈ cases.map (fun c => c.rowid))
    ∧ doneRow ∈ dbMixed
    ∧ (∃ cases db2, claim_batch (reset dbMixed).2 (some 9) (total_cases dbMixed) =
          Except.ok (cases, db2)
        ∧ doneRow.rowid ∈ cases.map (fun c => c.rowid)) :=
  ⟨by decide,
   (clean_reset_reselect dbMixed abandonedRow 9 (by decide)).1 (by decide) (by decide),
   by decide,
   (clean_reset_reselect dbMixed doneRow 9 (by decide)).2 (by decide)⟩

/-- Helper: the supervisor loop only ever exits at a poll where every
slot reports finished. -/
theorem superRun_finished (env : Nat → List Slot → List Slot) :
    ∀ (fuel t : Nat) (slots final : List Slot),
    superRun env fuel t slots = some final →
    final.all (fun s => s.finished) = true
  | 0, t, slots, final, h => absurd h (by simp [superRun])
  | fuel + 1, t, slots, final, h => by
    unfold superRun at h
    by_cases hall : slots.all (fun s => s.finished) = true
    · rw [if_pos hall] at h
      injection h with he
      subst he
      exact hall
    · rw [if_neg hall] at h
      exact superRun_finished env fuel (t + 1) _ final h

/-- C9: the supervisor loop terminates only at a poll where every slot
reports naturally finished; at a poll where every slot is finished it
exits immediately with those slots; otherwise it restarts and continues;
and the restart pass rebuilds exactly the dead unfinished slots with a
fresh executor and worker (a new generation, alive and unfinished),
leaving every live or finished slot untouched. -/
theorem supervisor_loop (env : Nat → List Slot → List Slot)
    (fuel t : Nat) (slots final : List Slot) :
    (superRun env fuel t slots = some final →
      final.all (fun s => s.finished) = true)
    ∧ (slots.all (fun s => s.finished) = true →
      superRun env (fuel + 1) t slots = some slots)
    ∧ (slots.all (fun s => s.finished) = false →
      superRun env (fuel + 1) t slots =
        superRun env fuel (t + 1) (env t (superPoll slots)))
    ∧ superPoll slots = slots.map restartSlot
    ∧ (∀ s ∈ slots,
        (s.alive = false ∧ s.finished = false →
          restartSlot s = { alive := true, finished := false, gen := s.gen + 1 })
        ∧ ((s.alive = true ∨ s.finished = true) → restartSlot s = s)) := by
  refine ⟨superRun_finished env fuel t slots final, ?_, ?_, rfl, ?_⟩
  · intro h
    unfold superRun
    rw [if_pos h]
  · intro h
    conv_lhs => rw [superRun]
    rw [if_neg (by simp [h])]
  · intro s _
    constructor
    · intro hc
      unfold restartSlot
      rw [if_pos hc]
    · intro hc
      unfold restartSlot
      have hn : ¬(s.alive = false ∧ s.finished = false) := by
        rintro ⟨ha, hf⟩
        rcases hc with hc | hc
        · rw [hc] at ha
          simp at ha
        · rw [hc] at hf
          simp at hf
      rw [if_neg hn]

/-- C9 witness: a single already-finished slot makes the loop exit at
once with that slot, which indeed reports finished. -/
theorem supervisor_loop_witness :
    ([({ alive := true, finished := true, gen := 0 } : Slot)].all
        (fun s => s.finished) = true)
    ∧ superRun (fun _ s => s) 1 0 [{ alive := true, finished := true, gen := 0 }] =
        some [{ alive := true, finished := true, gen := 0 }] :=
  ⟨by decide,
   (supervisor_loop (fun _ s => s) 0 0
     [{ alive := true, finished := true, gen := 0 }] []).2.1 (by decide)⟩

/-- C3 counterexample: `doneRow` has a non-null result, yet
`write_results` — an operation other than `reset` — alters it by
overwriting its stored result, refuting "only reset_all can alter it". -/
theorem completed_row_altered_by_write :
    write_results [doneRow] 1 [("x", PyVal.vInt 1)] =
      Except.ok [doneRowOverwritten]
    ∧ doneRowOverwritten ≠ doneRow := by
  exact ⟨rfl, by decide⟩

end Batch
